import Mathlib

/-!
Shallow embedding of pydicom's value-conversion core (`pydicom/values.py`)
and proofs about its behaviour.

Modelling conventions:
* byte strings are `List Nat` (each entry one byte value),
* decoded text is `List Char`, with `bytes.decode(encoding)` modelled as a
  code-point-per-byte decode (the default DICOM encoding "iso8859" is
  latin-1, where every byte decodes to the code point of the same value),
* Python exceptions become `Except PyErr`,
* `struct.unpack` is modelled with its real exact-buffer-size requirement,
* external collaborators that are not part of the repository
  (`MultiString`, the `DS`/`IS`/`DA`/`DT`/`TM`/`PersonName`/`UID` value
  constructors, `numpy.fromstring`, `read_sequence`, `text_VRs`) are
  modelled from the specification; each such definition is marked
  `Modelled from the spec:` in its doc comment.
-/

set_option maxHeartbeats 1000000

namespace PydicomValues

/-- Python exception kinds raised by the conversion core.  `valueError`
corresponds to `ValueError` (the only kind caught by `convert_value`'s
primary handler), `structError` to `struct.error` (not a `ValueError`
subclass), `notImplementedError` to the unsupported-VR error, and
`fuelExhausted` models exceeding the recursion budget (Python's
`RecursionError`, which like any exception is swallowed inside the retry
loop but propagates from the primary attempt). -/
inductive PyErr
  | valueError (msg : String)
  | structError
  | notImplementedError (msg : String)
  | fuelExhausted
deriving DecidableEq

/-- Converted values.  Scalars are never wrapped; `multi` covers both a
plain Python `list` (from `convert_numbers`) and `MultiValue`.  Floats are
kept as their IEEE bit patterns since the code only reinterprets bytes and
never computes with them.  `pn` keeps the raw component bytes plus the
encoding triple, mirroring `PersonName(x, encoding)` which stores both.
`seq` is the verbatim result of the external `read_sequence` call. -/
inductive DicomValue
  | str (s : List Char)
  | int (n : Int)
  | float32 (bits : Nat)
  | float64 (bits : Nat)
  | tag (group elem : Nat)
  | bytes (bs : List Nat)
  | pn (component : List Nat) (enc : Option (List String))
  | uid (s : List Char)
  | dsv (q : ℚ)
  | isv (n : Int)
  | da (s : List Char)
  | dt (s : List Char)
  | tm (s : List Char)
  | seq (bs : List Nat) (implicitVR : Bool) (little : Bool) (enc : List String) (offset : Nat)
  | multi (vs : List DicomValue)

/-- Python `struct` format characters used by the converter registry. -/
inductive StructFmt
  | L
  | l
  | H
  | h
  | f
  | d
deriving DecidableEq

/-- Per-value byte width, `calcsize("=" + struct_format)` with standard sizes. -/
def byteWidth : StructFmt → Nat
  | .L => 4
  | .l => 4
  | .H => 2
  | .h => 2
  | .f => 4
  | .d => 8

/-- Little-endian byte list to unsigned integer. -/
def leNat : List Nat → Nat
  | [] => 0
  | b :: rest => b + 256 * leNat rest

/-- Assemble one byte group into an unsigned integer honouring endianness. -/
def assembleBytes (little : Bool) (w : List Nat) : Nat :=
  if little then leNat w else leNat w.reverse

/-- Reinterpret an unsigned value of the given bit width as two's complement. -/
def toSigned (bits : Nat) (u : Nat) : Int :=
  if u < 2 ^ (bits - 1) then (u : Int) else (u : Int) - 2 ^ bits

/-- Decode one byte group according to the struct format character. -/
def decodeGroup (fmt : StructFmt) (little : Bool) (w : List Nat) : DicomValue :=
  match fmt with
  | .L => .int (assembleBytes little w)
  | .l => .int (toSigned 32 (assembleBytes little w))
  | .H => .int (assembleBytes little w)
  | .h => .int (toSigned 16 (assembleBytes little w))
  | .f => .float32 (assembleBytes little w)
  | .d => .float64 (assembleBytes little w)

/-- Split a byte list into consecutive groups of `w` bytes (the final group
may be short when the length is not a multiple of `w`). -/
def chunkList (w : Nat) : List Nat → List (List Nat)
  | [] => []
  | b :: rest => (b :: rest).take w :: chunkList w (rest.drop (w - 1))
  termination_by l => l.length
  decreasing_by simp only [List.length_drop, List.length_cons]; omega

/-- Model of `struct.unpack(format_string, byte_string)` for `count` copies
of a single format character: the buffer length must equal the computed
size exactly, otherwise `struct.error` is raised. -/
def structUnpack (fmt : StructFmt) (little : Bool) (count : Nat) (bs : List Nat) :
    Except PyErr (List DicomValue) :=
  if bs.length = count * byteWidth fmt then
    .ok ((chunkList (byteWidth fmt) bs).map (decodeGroup fmt little))
  else
    .error .structError

/-- Collapse of `convert_numbers`' unpacked tuple: empty string for zero
values, the bare scalar for one, a list for several. -/
def collapseNumbers : List DicomValue → DicomValue
  | [] => .str []
  | [v] => v
  | vs => .multi vs

/-- Condition under which `convert_numbers` logs its length warning
(mirrors the guard `length % bytes_per_value != 0`). -/
def numbers_length_warning (struct_format : StructFmt) (byte_string : List Nat) : Bool :=
  byte_string.length % byteWidth struct_format != 0

/-- Embedding of `convert_numbers`: the item count is the truncating
division `length // bytes_per_value`, and the whole byte string is then
passed to `unpack` with that count. -/
def convert_numbers (byte_string : List Nat) (is_little_endian : Bool)
    (struct_format : StructFmt) : Except PyErr DicomValue :=
  let bytes_per_value := byteWidth struct_format
  let length := byte_string.length
  match structUnpack struct_format is_little_endian (length / bytes_per_value) byte_string with
  | .error e => .error e
  | .ok value => .ok (collapseNumbers value)

/-- One 16-bit field of a tag, `unpack("<H")` or `unpack(">H")` on two bytes. -/
def u16 (little : Bool) (b0 b1 : Nat) : Nat :=
  if little then b0 + 256 * b1 else b1 + 256 * b0

/-- Embedding of `convert_tag`: slice four bytes at `offset` and unpack two
16-bit fields; `unpack` demands exactly four bytes. -/
def convert_tag (byte_string : List Nat) (is_little_endian : Bool) (offset : Nat) :
    Except PyErr DicomValue :=
  match (byte_string.drop offset).take 4 with
  | [b0, b1, b2, b3] => .ok (.tag (u16 is_little_endian b0 b1) (u16 is_little_endian b2 b3))
  | _ => .error .structError

/-- Map a fallible function over a list, propagating the first error (the
eager construction order of a Python list comprehension or `MultiValue`). -/
def mapExcept {α : Type} (f : α → Except PyErr DicomValue) : List α → Except PyErr (List DicomValue)
  | [] => .ok []
  | x :: xs =>
    match f x with
    | .error e => .error e
    | .ok v =>
      match mapExcept f xs with
      | .error e => .error e
      | .ok vs => .ok (v :: vs)

/-- Condition under which `convert_ATvalue` logs its length warning (the
warning sits in the `length != 4` branch, guarded by `length % 4 != 0`). -/
def at_length_warning (byte_string : List Nat) : Bool :=
  byte_string.length != 4 && byte_string.length % 4 != 0

/-- Embedding of `convert_ATvalue`: exactly four bytes give a single tag;
otherwise one tag is read per offset in `range(0, length, 4)` and the
results are wrapped in a `MultiValue`. -/
def convert_ATvalue (byte_string : List Nat) (is_little_endian : Bool) :
    Except PyErr DicomValue :=
  let length := byte_string.length
  if length = 4 then
    convert_tag byte_string is_little_endian 0
  else
    match mapExcept (fun x => convert_tag byte_string is_little_endian x)
        ((List.range ((length + 3) / 4)).map (fun i => 4 * i)) with
    | .error e => .error e
    | .ok tags => .ok (.multi tags)

lemma collapseNumbers_of_two (vs : List DicomValue) (h : 2 ≤ vs.length) :
    collapseNumbers vs = .multi vs := by
  rcases vs with _ | ⟨a, _ | ⟨b, rest⟩⟩
  · simp at h
  · simp at h
  · rfl

lemma chunkList_eq_range (w : Nat) (hw : 1 ≤ w) :
    ∀ (N : Nat) (bs : List Nat), bs.length = N * w →
      chunkList w bs = (List.range N).map (fun i => (bs.drop (i * w)).take w) := by
  intro N
  induction N with
  | zero =>
    intro bs h
    have hbs : bs = [] := List.eq_nil_of_length_eq_zero (by simpa using h)
    subst hbs
    simp [chunkList]
  | succ N ih =>
    intro bs h
    obtain ⟨k, rfl⟩ : ∃ k, w = k + 1 := ⟨w - 1, by omega⟩
    match bs with
    | b :: rest =>
      rw [chunkList]
      have hsm : (N + 1) * (k + 1) = N * (k + 1) + (k + 1) := by ring
      have hlen : (rest.drop k).length = N * (k + 1) := by
        simp only [List.length_drop]
        simp only [List.length_cons] at h
        omega
      rw [List.range_succ_eq_map, List.map_cons, List.map_map]
      have hk1 : k + 1 - 1 = k := by omega
      rw [hk1, ih (rest.drop k) hlen]
      congr 1
      · simp
      · apply List.map_congr_left
        intro i _
        simp only [Function.comp_apply, Nat.succ_eq_add_one]
        have harith : (i + 1) * (k + 1) = i * (k + 1) + k + 1 := by ring
        rw [harith]
        rw [show List.drop (i * (k + 1) + k + 1) (b :: rest) =
          List.drop (i * (k + 1) + k) rest from rfl]
        rw [List.drop_drop, Nat.add_comm k (i * (k + 1))]

lemma take_drop_four : ∀ (off : Nat) (bs : List Nat), off + 4 ≤ bs.length →
    (bs.drop off).take 4 =
      [bs.getD off 0, bs.getD (off + 1) 0, bs.getD (off + 2) 0, bs.getD (off + 3) 0] := by
  intro off
  induction off with
  | zero =>
    intro bs h
    rcases bs with _ | ⟨b0, _ | ⟨b1, _ | ⟨b2, _ | ⟨b3, rest⟩⟩⟩⟩ <;>
      simp_all [List.getD_cons_zero, List.getD_cons_succ]
  | succ off ih =>
    intro bs h
    rcases bs with _ | ⟨b, rest⟩
    · simp at h
    · have hr := ih rest (by simp only [List.length_cons] at h; omega)
      simpa [List.getD_cons_succ] using hr

lemma mapExcept_ok_of {α : Type} (f : α → Except PyErr DicomValue) (g : α → DicomValue) :
    ∀ l : List α, (∀ x ∈ l, f x = .ok (g x)) → mapExcept f l = .ok (l.map g) := by
  intro l
  induction l with
  | nil => intro _; rfl
  | cons x xs ih =>
    intro h
    have hx := h x (by simp)
    have hxs := ih (fun y hy => h y (by simp [hy]))
    simp [mapExcept, hx, hxs]

lemma mapExcept_ok_mem {α : Type} (f : α → Except PyErr DicomValue) :
    ∀ (l : List α) (vs : List DicomValue), mapExcept f l = .ok vs →
      ∀ x ∈ l, ∃ v, f x = .ok v := by
  intro l
  induction l with
  | nil => intro vs _ x hx; simp at hx
  | cons y ys ih =>
    intro vs h x hx
    rcases hfy : f y with e | v
    · rw [mapExcept, hfy] at h; exact absurd h (by simp)
    · rcases hys : mapExcept f ys with e | ws
      · rw [mapExcept, hfy, hys] at h; exact absurd h (by simp)
      · rcases List.mem_cons.mp hx with rfl | hx'
        · exact ⟨v, hfy⟩
        · exact ih ws hys x hx'

lemma mapExcept_err {α : Type} (f : α → Except PyErr DicomValue) :
    ∀ (l : List α) (e : PyErr), mapExcept f l = .error e → ∃ x ∈ l, f x = .error e := by
  intro l
  induction l with
  | nil => intro e h; exact absurd h (by simp [mapExcept])
  | cons y ys ih =>
    intro e h
    rcases hfy : f y with e' | v
    · rw [mapExcept, hfy] at h
      obtain rfl : e' = e := by simpa using h
      exact ⟨y, by simp, hfy⟩
    · rw [mapExcept, hfy] at h
      rcases hys : mapExcept f ys with e' | ws
      · rw [hys] at h
        obtain rfl : e' = e := by simpa using h
        obtain ⟨x, hx, hfx⟩ := ih _ hys
        exact ⟨x, by simp [hx], hfx⟩
      · rw [hys] at h; exact absurd h (by simp)

lemma convert_tag_ok (byte_string : List Nat) (is_little_endian : Bool) (offset : Nat)
    (h : offset + 4 ≤ byte_string.length) :
    convert_tag byte_string is_little_endian offset =
      .ok (.tag (u16 is_little_endian (byte_string.getD offset 0)
            (byte_string.getD (offset + 1) 0))
          (u16 is_little_endian (byte_string.getD (offset + 2) 0)
            (byte_string.getD (offset + 3) 0))) := by
  unfold convert_tag
  rw [take_drop_four offset byte_string h]

lemma convert_tag_short (byte_string : List Nat) (is_little_endian : Bool) (offset : Nat)
    (h : byte_string.length < offset + 4) :
    convert_tag byte_string is_little_endian offset = .error .structError := by
  have hlen : ((byte_string.drop offset).take 4).length < 4 := by
    simp only [List.length_take, List.length_drop]
    omega
  unfold convert_tag
  rcases hl : (byte_string.drop offset).take 4 with _ | ⟨a, _ | ⟨b, _ | ⟨c, _ | ⟨d, rest⟩⟩⟩⟩
  · rfl
  · rfl
  · rfl
  · rfl
  · rw [hl] at hlen
    simp only [List.length_cons] at hlen
    omega

lemma convert_tag_err_kind (byte_string : List Nat) (is_little_endian : Bool) (offset : Nat)
    (e : PyErr) (h : convert_tag byte_string is_little_endian offset = .error e) :
    e = .structError := by
  unfold convert_tag at h
  rcases hl : (byte_string.drop offset).take 4 with _ | ⟨a, _ | ⟨b, _ | ⟨c, _ | ⟨d, _ | ⟨x, xs⟩⟩⟩⟩⟩ <;>
    rw [hl] at h <;> simp_all

/-- C4 (amended): when the payload length is not an exact multiple of the
per-value byte width, `convert_numbers` takes the warning branch and then
the `unpack` call raises `struct.error` (there is no truncation), so the
length mismatch escapes as a non-ValueError exception instead of a
warning-only best-effort decode. -/
theorem c4_length_mismatch_raises (struct_format : StructFmt) (is_little_endian : Bool)
    (byte_string : List Nat)
    (h : byte_string.length % byteWidth struct_format ≠ 0) :
    numbers_length_warning struct_format byte_string = true ∧
    convert_numbers byte_string is_little_endian struct_format = .error .structError := by
  constructor
  · unfold numbers_length_warning
    simpa using h
  · have hne : byte_string.length ≠
        byte_string.length / byteWidth struct_format * byteWidth struct_format := by
      intro hEq
      exact h (by rw [hEq]; exact Nat.mul_mod_left _ _)
    simp only [convert_numbers, structUnpack]
    rw [if_neg hne]

/-- C4 counterexample: the 3-byte payload [0, 0, 0] with the 2-byte 'H'
format is claimed to decode with truncation semantics and never fail, but
`convert_numbers` raises struct.error. -/
theorem c4_counterexample :
    convert_numbers [0, 0, 0] true .H = .error .structError := rfl

/-- Witness for C4's amended theorem at a concrete mismatched payload. -/
theorem c4_witness :
    numbers_length_warning .H [0, 0, 0] = true ∧
    convert_numbers [0, 0, 0] true .H = .error .structError :=
  c4_length_mismatch_raises .H true [0, 0, 0] (by decide)

/-- C5: for a numeric payload of length N times the format's byte width,
`convert_numbers` returns the empty string when N is zero, the bare scalar
(never a one-element sequence) when N is one, and an ordered sequence of
exactly N values when N exceeds one, where the i-th value is decoded from
the i-th width-sized byte window in stream order with the declared
endianness. -/
theorem c5_convert_numbers_multiplicity (struct_format : StructFmt) (is_little_endian : Bool)
    (byte_string : List Nat) (N : Nat)
    (h : byte_string.length = N * byteWidth struct_format) :
    (N = 0 → convert_numbers byte_string is_little_endian struct_format = .ok (.str [])) ∧
    (N = 1 → convert_numbers byte_string is_little_endian struct_format =
        .ok (decodeGroup struct_format is_little_endian
          (byte_string.take (byteWidth struct_format)))) ∧
    (2 ≤ N → convert_numbers byte_string is_little_endian struct_format =
        .ok (.multi ((List.range N).map (fun i =>
          decodeGroup struct_format is_little_endian
            ((byte_string.drop (i * byteWidth struct_format)).take
              (byteWidth struct_format)))))) := by
  have hw : 1 ≤ byteWidth struct_format := by cases struct_format <;> simp [byteWidth]
  have hcount : byte_string.length / byteWidth struct_format = N := by
    rw [h]
    exact Nat.mul_div_cancel _ (by omega)
  have hmain : convert_numbers byte_string is_little_endian struct_format =
      .ok (collapseNumbers ((List.range N).map (fun i =>
        decodeGroup struct_format is_little_endian
          ((byte_string.drop (i * byteWidth struct_format)).take
            (byteWidth struct_format))))) := by
    simp only [convert_numbers, structUnpack]
    rw [hcount, if_pos h, chunkList_eq_range (byteWidth struct_format) hw N byte_string h,
      List.map_map]
    rfl
  refine ⟨?_, ?_, ?_⟩
  · intro h0
    subst h0
    simpa [collapseNumbers] using hmain
  · intro h1
    subst h1
    rw [hmain, show List.range 1 = [0] from rfl]
    simp [collapseNumbers, Nat.zero_mul, List.drop_zero]
  · intro h2
    rw [hmain]
    rw [collapseNumbers_of_two _ (by simpa using h2)]

/-- Witness for C5 at a concrete two-value little-endian 'H' payload. -/
theorem c5_witness :
    convert_numbers [1, 0, 2, 0] true .H = .ok (.multi [.int 1, .int 2]) := by
  have h := (c5_convert_numbers_multiplicity .H true [1, 0, 2, 0] 2 (by decide)).2.2 (by decide)
  exact h.trans (by rfl)

/-- C6 (amended): exactly four bytes yield a single tag; any other length
that is a multiple of four (including zero) yields a MultiValue with one
tag per 4-byte window in stream order under the declared endianness; a
length that is not a multiple of four triggers the warning and then fails
with struct.error when the final short window is unpacked, rather than
being warning-only. -/
theorem c6_convert_AT (byte_string : List Nat) (is_little_endian : Bool) :
    (∀ b0 b1 b2 b3, byte_string = [b0, b1, b2, b3] →
      convert_ATvalue byte_string is_little_endian =
        .ok (.tag (u16 is_little_endian b0 b1) (u16 is_little_endian b2 b3))) ∧
    (∀ k, byte_string.length = 4 * k → k ≠ 1 →
      convert_ATvalue byte_string is_little_endian =
        .ok (.multi ((List.range k).map (fun i =>
          DicomValue.tag
            (u16 is_little_endian (byte_string.getD (4 * i) 0)
              (byte_string.getD (4 * i + 1) 0))
            (u16 is_little_endian (byte_string.getD (4 * i + 2) 0)
              (byte_string.getD (4 * i + 3) 0)))))) ∧
    (byte_string.length % 4 ≠ 0 →
      at_length_warning byte_string = true ∧
      convert_ATvalue byte_string is_little_endian = .error .structError) := by
  refine ⟨?_, ?_, ?_⟩
  · intro b0 b1 b2 b3 hbs
    subst hbs
    rfl
  · intro k hk hk1
    have hne4 : byte_string.length ≠ 4 := by rw [hk]; omega
    have hoff : (byte_string.length + 3) / 4 = k := by rw [hk]; omega
    have hmap : mapExcept (fun x => convert_tag byte_string is_little_endian x)
        ((List.range k).map (fun i => 4 * i)) =
        .ok (((List.range k).map (fun i => 4 * i)).map (fun off =>
          DicomValue.tag
            (u16 is_little_endian (byte_string.getD off 0) (byte_string.getD (off + 1) 0))
            (u16 is_little_endian (byte_string.getD (off + 2) 0)
              (byte_string.getD (off + 3) 0)))) := by
      apply mapExcept_ok_of
      intro x hx
      obtain ⟨i, hi, rfl⟩ : ∃ i, i < k ∧ 4 * i = x := by
        obtain ⟨i, hi, hx'⟩ := List.mem_map.mp hx
        exact ⟨i, List.mem_range.mp hi, hx'⟩
      exact convert_tag_ok byte_string is_little_endian (4 * i) (by omega)
    simp only [convert_ATvalue]
    rw [if_neg hne4, hoff, hmap, List.map_map]
    rfl
  · intro h3
    have hne4 : byte_string.length ≠ 4 := by omega
    constructor
    · unfold at_length_warning
      simp only [Bool.and_eq_true, bne_iff_ne]
      exact ⟨hne4, h3⟩
    · have hk1 : 1 ≤ (byte_string.length + 3) / 4 := by omega
      have hshort : byte_string.length < 4 * ((byte_string.length + 3) / 4 - 1) + 4 := by omega
      have htagerr := convert_tag_short byte_string is_little_endian
        (4 * ((byte_string.length + 3) / 4 - 1)) hshort
      have hmem : 4 * ((byte_string.length + 3) / 4 - 1) ∈
          (List.range ((byte_string.length + 3) / 4)).map (fun i => 4 * i) := by
        apply List.mem_map.mpr
        exact ⟨(byte_string.length + 3) / 4 - 1, List.mem_range.mpr (by omega), rfl⟩
      rcases hmr : mapExcept (fun x => convert_tag byte_string is_little_endian x)
          ((List.range ((byte_string.length + 3) / 4)).map (fun i => 4 * i)) with e | tags
      · obtain ⟨x, hx, hfx⟩ := mapExcept_err _ _ _ hmr
        obtain rfl : e = PyErr.structError := convert_tag_err_kind _ _ _ _ hfx
        simp only [convert_ATvalue]
        rw [if_neg hne4, hmr]
      · obtain ⟨v, hv⟩ := mapExcept_ok_mem _ _ _ hmr _ hmem
        rw [hv] at htagerr
        exact absurd htagerr (by simp)

/-- C6 counterexample: the 2-byte payload [1, 2] has a length that is not a
positive multiple of four; the claim says this only produces a warning and
never a failure, but `convert_ATvalue` fails with struct.error. -/
theorem c6_counterexample : convert_ATvalue [1, 2] true = .error .structError := rfl

/-- Witness for C6's amended theorem at a concrete 8-byte payload. -/
theorem c6_witness :
    convert_ATvalue [1, 0, 2, 0, 3, 0, 4, 0] true =
      .ok (.multi [.tag 1 2, .tag 3 4]) := by
  have h := (c6_convert_AT [1, 0, 2, 0, 3, 0, 4, 0] true).2.1 2 (by decide) (by decide)
  exact h.trans (by rfl)

/-- Default encoding identifier (`pydicom.charset.default_encoding`).
Modelled from the spec: an external constant naming latin-1. -/
def default_encoding : String := "iso8859"

/-- Modelled from the spec: `bytes.decode(encoding)`.  Decoded text is one
character per byte at the same code point, which is exact for the default
latin-1 encoding; multi-byte encodings are outside the scope of the claims
considered here, so the encoding identifier does not alter the decode. -/
def pyDecode (encoding : String) (bs : List Nat) : List Char :=
  bs.map Char.ofNat

/-- ASCII whitespace stripped by Python `str.strip` and `str.rstrip`. -/
def pyWs (c : Char) : Bool :=
  c = ' ' || c = '\t' || c = '\n' || c = '\r' || c = Char.ofNat 11 || c = Char.ofNat 12

/-- Left part of Python `str.strip`. -/
def trimLeftWs (l : List Char) : List Char := l.dropWhile pyWs

/-- Python `str.rstrip()`. -/
def trimRightWs (l : List Char) : List Char := (l.reverse.dropWhile pyWs).reverse

/-- Python `str.strip()`. -/
def pyStrip (l : List Char) : List Char := trimLeftWs (trimRightWs l)

/-- Python `str.split(sep)` for a one-character separator: it always
returns at least one (possibly empty) part. -/
def splitCharsOn (sep : Char) : List Char → List (List Char)
  | [] => [[]]
  | c :: rest =>
    match splitCharsOn sep rest with
    | [] => [[]]
    | p :: ps => if c = sep then [] :: p :: ps else (c :: p) :: ps

/-- Python `bytes.split(sep)` for a one-byte separator. -/
def splitBytesOn (sep : Nat) : List Nat → List (List Nat)
  | [] => [[]]
  | b :: rest =>
    match splitBytesOn sep rest with
    | [] => [[]]
    | p :: ps => if b = sep then [] :: p :: ps else (b :: p) :: ps

/-- The multi-value delimiter. -/
def backslash : Char := '\\'

/-- Digit run to a natural number; `none` unless non-empty and all digits. -/
def digitsToNat (l : List Char) : Option Nat :=
  if l ≠ [] ∧ l.all Char.isDigit then
    some (l.foldl (fun a c => a * 10 + (c.toNat - 48)) 0)
  else none

/-- Value of a (possibly empty) digit run. -/
def digitsVal (l : List Char) : Nat := l.foldl (fun a c => a * 10 + (c.toNat - 48)) 0

/-- Modelled from the spec: the integer-string value constructor
(`pydicom.valuerep.IS`, Python `int()`): optional surrounding whitespace,
an optional sign, then a non-empty digit run. -/
def parseIS (l : List Char) : Option Int :=
  match pyStrip l with
  | '+' :: rest => (digitsToNat rest).map (fun n => (n : Int))
  | '-' :: rest => (digitsToNat rest).map (fun n => -(n : Int))
  | t => (digitsToNat t).map (fun n => (n : Int))

/-- Mantissa of a decimal literal: digit runs around at most one point,
with at least one digit in total. -/
def parseMantissa (l : List Char) : Option ℚ :=
  match splitCharsOn '.' l with
  | [a] => if a ≠ [] ∧ a.all Char.isDigit then some ((digitsVal a : ℚ)) else none
  | [a, b] =>
    if (a ≠ [] ∨ b ≠ []) ∧ a.all Char.isDigit ∧ b.all Char.isDigit then
      some ((digitsVal a : ℚ) + (digitsVal b : ℚ) / (10 : ℚ) ^ b.length)
    else none
  | _ => none

/-- Strip one optional leading sign; the Bool records a minus. -/
def splitSign (l : List Char) : Bool × List Char :=
  match l with
  | c :: rest =>
    if c = '+' then (false, rest)
    else if c = '-' then (true, rest)
    else (false, c :: rest)
  | [] => (false, [])

/-- Modelled from the spec: the decimal-string value constructor
(`pydicom.valuerep.DS`, Python `float()`) and equally one element
conversion of `numpy.fromstring`: sign, mantissa and optional exponent,
evaluated as an exact rational.  The grammar deliberately admits no
surrounding whitespace — a conservative common core of the two external
parsers, which the spec does not pin down further. -/
def parseDS (l : List Char) : Option ℚ :=
  match splitCharsOn 'e' (l.map (fun c => if c = 'E' then 'e' else c)) with
  | [m] =>
    (parseMantissa (splitSign m).2).map (fun q => if (splitSign m).1 then -q else q)
  | [m, ex] =>
    (parseMantissa (splitSign m).2).bind (fun q =>
      (digitsToNat (splitSign ex).2).map (fun e =>
        if (splitSign ex).1 then (if (splitSign m).1 then -q else q) / (10 : ℚ) ^ e
        else (if (splitSign m).1 then -q else q) * (10 : ℚ) ^ e))
  | _ => none

/-- Modelled from the spec: `IS(x)` boxing, raising ValueError on failure. -/
def mkIS (l : List Char) : Except PyErr DicomValue :=
  match parseIS l with
  | some n => .ok (.isv n)
  | none => .error (.valueError ("invalid IS value: " ++ l.asString))

/-- Modelled from the spec: `DS(x)` boxing, raising ValueError on failure. -/
def mkDS (l : List Char) : Except PyErr DicomValue :=
  match parseDS l with
  | some q => .ok (.dsv q)
  | none => .error (.valueError ("invalid DS value: " ++ l.asString))

/-- Modelled from the spec: the UID-tagged string constructor, which does
not fail on construction. -/
def mkUID (l : List Char) : Except PyErr DicomValue := .ok (.uid l)

/-- Modelled from the spec: the DA date constructor — the empty string or
an eight-digit date, ValueError otherwise. -/
def mkDA (l : List Char) : Except PyErr DicomValue :=
  if l = [] ∨ (l.length = 8 ∧ l.all Char.isDigit) then .ok (.da l)
  else .error (.valueError ("invalid DA value: " ++ l.asString))

/-- Modelled from the spec: the DT date-time constructor. -/
def mkDT (l : List Char) : Except PyErr DicomValue :=
  if l = [] ∨ ((4 ≤ l.length ∧ l.length ≤ 26) ∧ l.all Char.isDigit) then .ok (.dt l)
  else .error (.valueError ("invalid DT value: " ++ l.asString))

/-- Modelled from the spec: the TM time constructor. -/
def mkTM (l : List Char) : Except PyErr DicomValue :=
  if l = [] ∨ ((2 ≤ l.length ∧ l.length ≤ 16) ∧ l.all Char.isDigit) then .ok (.tm l)
  else .error (.valueError ("invalid TM value: " ++ l.asString))

/-- Modelled from the spec: `pydicom.valuerep.MultiString` — split the
decoded string on the backslash delimiter; a single part is passed to the
per-element constructor and returned bare, several parts become a
MultiValue whose elements are constructed independently (the first
construction failure propagating, as in the eager Python construction). -/
def MultiString (val : List Char) (valtype : List Char → Except PyErr DicomValue) :
    Except PyErr DicomValue :=
  match splitCharsOn backslash val with
  | [p] => valtype p
  | parts =>
    match mapExcept valtype parts with
    | .error e => .error e
    | .ok vs => .ok (.multi vs)

/-- Embedding of `convert_AE_string`: decode, then strip both ends. -/
def convert_AE_string (byte_string : List Nat) (encoding : String) : Except PyErr DicomValue :=
  .ok (.str (pyStrip (pyDecode encoding byte_string)))

/-- Embedding of `convert_string`: decode, then `MultiString` with the
plain-string constructor. -/
def convert_string (byte_string : List Nat) (encoding : String) : Except PyErr DicomValue :=
  MultiString (pyDecode encoding byte_string) (fun p => .ok (.str p))

/-- Embedding of `convert_single_string`: decode, strip at most one
trailing space, never split on the delimiter. -/
def convert_single_string (byte_string : List Nat) (encoding : String) :
    Except PyErr DicomValue :=
  let s := pyDecode encoding byte_string
  .ok (.str (if s ≠ [] ∧ s.getLast? = some ' ' then s.dropLast else s))

/-- Embedding of `convert_UR_string`: decode, then strip trailing
whitespace only. -/
def convert_UR_string (byte_string : List Nat) (encoding : String) : Except PyErr DicomValue :=
  .ok (.str (trimRightWs (pyDecode encoding byte_string)))

/-- Embedding of `convert_UI`: decode, strip one trailing NUL, then
`MultiString` with the UID constructor. -/
def convert_UI (byte_string : List Nat) : Except PyErr DicomValue :=
  let s := pyDecode default_encoding byte_string
  MultiString (if s ≠ [] ∧ s.getLast? = some (Char.ofNat 0) then s.dropLast else s) mkUID

/-- Embedding of `convert_OBvalue` (also used by `convert_OWvalue` and
`convert_UN`): return the raw bytes unchanged, no byte swapping. -/
def convert_OBvalue (byte_string : List Nat) : Except PyErr DicomValue :=
  .ok (.bytes byte_string)

/-- Embedding of `convert_PN`: strip exactly one trailing space or NUL
byte from a non-empty payload, split the raw bytes on the backslash byte,
and box each component (the external PersonName construction is modelled
from the spec as an always-succeeding boxing of the component bytes with
the encoding triple). -/
def convert_PN (byte_string : List Nat) (encoding : Option (List String)) :
    Except PyErr DicomValue :=
  match splitBytesOn 92 (if byte_string ≠ [] ∧
      (byte_string.getLast? = some 32 ∨ byte_string.getLast? = some 0) then
    byte_string.dropLast else byte_string) with
  | [p] => .ok (.pn p encoding)
  | parts => .ok (.multi (parts.map (fun p => .pn p encoding)))

/-- Person-name value(s) built from an already-stripped byte payload:
singleton split collapses to a scalar, otherwise a MultiValue. -/
def pn_from_parts (b2 : List Nat) (encoding : Option (List String)) : DicomValue :=
  match splitBytesOn 92 b2 with
  | [p] => .pn p encoding
  | parts => .multi (parts.map (fun p => .pn p encoding))

/-- Embedding of `convert_IS_string`: decode with the default encoding and
box every backslash-separated component as an IS value (no stripping). -/
def convert_IS_string (byte_string : List Nat) : Except PyErr DicomValue :=
  MultiString (pyDecode default_encoding byte_string) mkIS

/-- Embedding of `convert_DS_string`: decode with the default encoding,
strip the whole string, and box each component as a DS value. -/
def convert_DS_string (byte_string : List Nat) : Except PyErr DicomValue :=
  MultiString (pyStrip (pyDecode default_encoding byte_string)) mkDS

/-- The process-wide configuration flags read by the core. -/
structure Config where
  enforce_valid_values : Bool
  datetime_conversion : Bool

/-- Embedding of `convert_DA_string`: with date-time conversion enabled,
split the decoded string and box each right-stripped component as a DA
value; otherwise fall back to `convert_string`. -/
def convert_DA_string (cfg : Config) (byte_string : List Nat) : Except PyErr DicomValue :=
  if cfg.datetime_conversion then
    match splitCharsOn backslash (pyDecode default_encoding byte_string) with
    | [p] => mkDA (trimRightWs p)
    | parts =>
      match mapExcept (fun p => mkDA (trimRightWs p)) parts with
      | .error e => .error e
      | .ok vs => .ok (.multi vs)
  else convert_string byte_string default_encoding

/-- Embedding of `convert_DT_string`, shaped like `convert_DA_string`. -/
def convert_DT_string (cfg : Config) (byte_string : List Nat) : Except PyErr DicomValue :=
  if cfg.datetime_conversion then
    match splitCharsOn backslash (pyDecode default_encoding byte_string) with
    | [p] => mkDT (trimRightWs p)
    | parts =>
      match mapExcept (fun p => mkDT (trimRightWs p)) parts with
      | .error e => .error e
      | .ok vs => .ok (.multi vs)
  else convert_string byte_string default_encoding

/-- Embedding of `convert_TM_string`, shaped like `convert_DA_string`. -/
def convert_TM_string (cfg : Config) (byte_string : List Nat) : Except PyErr DicomValue :=
  if cfg.datetime_conversion then
    match splitCharsOn backslash (pyDecode default_encoding byte_string) with
    | [p] => mkTM (trimRightWs p)
    | parts =>
      match mapExcept (fun p => mkTM (trimRightWs p)) parts with
      | .error e => .error e
      | .ok vs => .ok (.multi vs)
  else convert_string byte_string default_encoding

/-- Embedding of `convert_SQ`; the external `read_sequence` recursive
descent parser is modelled from the spec as returning its parse verbatim. -/
def convert_SQ (byte_string : List Nat) (is_implicit_VR : Bool) (is_little_endian : Bool)
    (encoding : List String) (offset : Nat) : Except PyErr DicomValue :=
  .ok (.seq byte_string is_implicit_VR is_little_endian encoding offset)

/-- Raw data element: the borrowed unit of input of `convert_value`. -/
structure RawElement where
  tag : Nat
  value : List Nat
  is_little_endian : Bool
  is_implicit_VR : Bool
  value_tell : Nat

/-- Character repertoire of the fast numeric-string path — the character
class of the regex at values.py line 333: space, backslash, digits, dot,
plus and minus for 'IS'; additionally 'e' and 'E' for any other VR. -/
def num_str_allowed (VR : String) (c : Char) : Bool :=
  if VR = "IS" then
    c = ' ' || c = backslash || c.isDigit || c = '.' || c = '+' || c = '-'
  else
    c = ' ' || c = backslash || c.isDigit || c = '.' || c = '+' || c = 'e' || c = 'E' || c = '-'

/-- Repertoire validation of `convert_value_num_str`: the anchored
character-class regex matches exactly when every character is in the
class, and the reported residue (the `re.sub` of all allowed runs by the
empty string) is the subsequence of disallowed characters. -/
def num_str_check (VR : String) (s : List Char) : Except PyErr Unit :=
  if s.all (num_str_allowed VR) then .ok ()
  else .error (.valueError (VR ++ ": char(s) not in repertoire: '" ++
    (s.filter (fun c => !num_str_allowed VR c)).asString ++ "'"))

/-- Modelled from the spec: `numpy.fromstring(num_str, dtype, sep=chr(92))`
parses every backslash-separated number in one pass, failing when a
component does not parse. -/
def numpy_fromstring (VR : String) (s : List Char) : Except PyErr (List DicomValue) :=
  mapExcept (fun p => if VR = "IS" then mkIS p else mkDS p) (splitCharsOn backslash s)

/-- Collapse of the fast path: `value[0]` when exactly one number was
parsed, the array itself otherwise. -/
def numpy_collapse (vals : List DicomValue) : DicomValue :=
  match vals with
  | [v] => v
  | _ => .multi vals

/-- Embedding of `convert_value_num_str`: decode (a list-valued encoding
falls back to its first entry, immaterial under the byte-per-code-point
decode model), validate the repertoire, parse all numbers through the
accelerated path, and collapse a singleton to a scalar. -/
def convert_value_num_str (VR : String) (raw_data_element : RawElement) (encoding : String) :
    Except PyErr DicomValue :=
  match num_str_check VR (pyDecode encoding raw_data_element.value) with
  | .error e => .error e
  | .ok _ =>
    match numpy_fromstring VR (pyDecode encoding raw_data_element.value) with
    | .error e => .error e
    | .ok vals => .ok (numpy_collapse vals)

lemma convert_PN_strip (byte_string : List Nat) (encoding : Option (List String)) :
    convert_PN byte_string encoding =
      .ok (pn_from_parts
        (if byte_string ≠ [] ∧
            (byte_string.getLast? = some 32 ∨ byte_string.getLast? = some 0) then
          byte_string.dropLast
        else byte_string) encoding) := by
  unfold convert_PN pn_from_parts
  rcases h : splitBytesOn 92 (if byte_string ≠ [] ∧
      (byte_string.getLast? = some 32 ∨ byte_string.getLast? = some 0) then
    byte_string.dropLast else byte_string) with _ | ⟨p, _ | ⟨q, rest⟩⟩ <;> simp [h]

/-- C7: `convert_PN` strips exactly one trailing space or NUL byte from a
non-empty payload before splitting on the delimiter (in particular, a
payload ending in two spaces keeps one of them), leaves payloads without
such a trailing byte untouched, and — through `pn_from_parts` — returns a
scalar name value for a singleton split and an ordered MultiValue
otherwise. -/
theorem c7_convert_PN (byte_string : List Nat) (encoding : Option (List String)) :
    (byte_string.getLast? = some 32 ∨ byte_string.getLast? = some 0 →
      convert_PN byte_string encoding = .ok (pn_from_parts byte_string.dropLast encoding)) ∧
    (byte_string.getLast? ≠ some 32 → byte_string.getLast? ≠ some 0 →
      convert_PN byte_string encoding = .ok (pn_from_parts byte_string encoding)) ∧
    (∀ p, byte_string = p ++ [32, 32] →
      convert_PN byte_string encoding = .ok (pn_from_parts (p ++ [32]) encoding)) := by
  refine ⟨?_, ?_, ?_⟩
  · intro h
    have hne : byte_string ≠ [] := by
      rintro rfl
      rcases h with h | h <;> simp at h
    rw [convert_PN_strip, if_pos ⟨hne, h⟩]
  · intro h32 h0
    rw [convert_PN_strip, if_neg]
    rintro ⟨-, h | h⟩
    · exact h32 h
    · exact h0 h
  · intro p hp
    subst hp
    have hlast : (p ++ [32, 32]).getLast? = some 32 := by
      rw [show p ++ [32, 32] = (p ++ [32]) ++ [32] by simp]
      exact List.getLast?_concat _
    have hdrop : (p ++ [32, 32]).dropLast = p ++ [32] := by
      rw [show p ++ [32, 32] = (p ++ [32]) ++ [32] by simp]
      exact List.dropLast_concat ..
    rw [convert_PN_strip, if_pos ⟨by simp, Or.inl hlast⟩, hdrop]

/-- Witness for C7: the payload "AB  " (two trailing spaces) keeps exactly
one trailing space in its single name component. -/
theorem c7_witness :
    convert_PN [65, 66, 32, 32] none = .ok (.pn [65, 66, 32] none) := by
  have h := (c7_convert_PN [65, 66, 32, 32] none).2.2 [65, 66] rfl
  exact h.trans (by rfl)

lemma num_str_check_ok_iff (VR : String) (s : List Char) :
    num_str_check VR s = .ok () ↔ s.all (num_str_allowed VR) = true := by
  unfold num_str_check
  split_ifs with h
  · simp [h]
  · simp [h]

/-- C8 (amended): the fast-path repertoire is — for both numeric-text VRs —
space, the backslash delimiter, digits, the decimal point and the signs,
with the exponent markers additionally allowed for DS (so the decimal
point and the space are accepted for IS too, contrary to the narrower
claimed repertoire); a string containing any character outside this
repertoire makes `convert_value_num_str` raise a ValueError reporting
exactly the offending residue characters, and strings inside it never
trigger that failure. -/
theorem c8_repertoire (s : List Char) :
    (num_str_check "IS" s = .ok () ↔
      ∀ c ∈ s, c = ' ' ∨ c = backslash ∨ c.isDigit = true ∨ c = '.' ∨ c = '+' ∨ c = '-') ∧
    (num_str_check "DS" s = .ok () ↔
      ∀ c ∈ s, c = ' ' ∨ c = backslash ∨ c.isDigit = true ∨ c = '.' ∨ c = '+' ∨
        c = 'e' ∨ c = 'E' ∨ c = '-') ∧
    (∀ VR e, num_str_check VR s = .error e →
      e = .valueError (VR ++ ": char(s) not in repertoire: '" ++
        (s.filter (fun c => !num_str_allowed VR c)).asString ++ "'") ∧
      ∃ c ∈ s, num_str_allowed VR c = false) ∧
    (∀ VR (raw_data_element : RawElement) (encoding : String),
      pyDecode encoding raw_data_element.value = s →
      s.all (num_str_allowed VR) = false →
      convert_value_num_str VR raw_data_element encoding =
        .error (.valueError (VR ++ ": char(s) not in repertoire: '" ++
          (s.filter (fun c => !num_str_allowed VR c)).asString ++ "'"))) := by
  refine ⟨?_, ?_, ?_, ?_⟩
  · rw [num_str_check_ok_iff]
    simp [List.all_eq_true, num_str_allowed, or_assoc]
  · rw [num_str_check_ok_iff]
    simp [List.all_eq_true, num_str_allowed, or_assoc]
  · intro VR e h
    unfold num_str_check at h
    by_cases hall : s.all (num_str_allowed VR) = true
    · rw [if_pos hall] at h
      exact absurd h (by simp)
    · rw [if_neg hall] at h
      refine ⟨by simpa using h.symm, ?_⟩
      simp only [List.all_eq_true, not_forall] at hall
      obtain ⟨c, hc, hnc⟩ := hall
      exact ⟨c, hc, by simpa using hnc⟩
  · intro VR raw_data_element encoding hdec hall
    unfold convert_value_num_str num_str_check
    rw [hdec, hall]
    simp

/-- C8 counterexample: under the claim the decimal point lies outside the
integer-string repertoire, so the IS payload "1.5" should raise the
repertoire validation failure; the source's check accepts it, and the
conversion then fails with a plain parse error that reports no residue. -/
theorem c8_counterexample :
    num_str_check "IS" ['1', '.', '5'] = .ok () ∧
    convert_value_num_str "IS" ⟨0, [49, 46, 53], true, false, 0⟩ default_encoding =
      .error (.valueError "invalid IS value: 1.5") := ⟨rfl, rfl⟩

/-- Witness for C8's amended theorem: the DS payload "x" is outside the
repertoire and the conversion reports the residue "x". -/
theorem c8_witness :
    convert_value_num_str "DS" ⟨0, [120], true, false, 0⟩ default_encoding =
      .error (.valueError "DS: char(s) not in repertoire: 'x'") := by
  have h := (c8_repertoire ['x']).2.2.2 "DS" ⟨0, [120], true, false, 0⟩ default_encoding
    rfl (by decide)
  exact h.trans (by rfl)

lemma splitCharsOn_ne_nil (sep : Char) : ∀ l : List Char, splitCharsOn sep l ≠ [] := by
  intro l
  cases l with
  | nil => simp [splitCharsOn]
  | cons c rest =>
    rw [splitCharsOn]
    rcases h : splitCharsOn sep rest with _ | ⟨p, ps⟩
    · show ([[]] : List (List Char)) ≠ []
      simp
    · show (if c = sep then [] :: p :: ps else (c :: p) :: ps) ≠ []
      split_ifs <;> simp

lemma mem_splitCharsOn (sep c : Char) :
    ∀ l : List Char, c ∈ l → c = sep ∨ ∃ p ∈ splitCharsOn sep l, c ∈ p := by
  intro l
  induction l with
  | nil => intro h; simp at h
  | cons b rest ih =>
    intro hc
    rcases hsp : splitCharsOn sep rest with _ | ⟨p, ps⟩
    · exact absurd hsp (splitCharsOn_ne_nil sep rest)
    · by_cases hbs : b = sep
      · have hparts : splitCharsOn sep (b :: rest) = [] :: p :: ps := by
          rw [splitCharsOn, hsp]
          show (if b = sep then [] :: p :: ps else (b :: p) :: ps) = [] :: p :: ps
          rw [if_pos hbs]
        rcases List.mem_cons.mp hc with rfl | hcr
        · exact Or.inl hbs
        · rcases ih hcr with h | ⟨p', hp', hcp'⟩
          · exact Or.inl h
          · rw [hsp] at hp'
            exact Or.inr ⟨p', by rw [hparts]; exact List.mem_cons_of_mem _ hp', hcp'⟩
      · have hparts : splitCharsOn sep (b :: rest) = (b :: p) :: ps := by
          rw [splitCharsOn, hsp]
          show (if b = sep then [] :: p :: ps else (b :: p) :: ps) = (b :: p) :: ps
          rw [if_neg hbs]
        rcases List.mem_cons.mp hc with rfl | hcr
        · exact Or.inr ⟨c :: p, by rw [hparts]; exact List.mem_cons_self _ _,
            List.mem_cons_self _ _⟩
        · rcases ih hcr with h | ⟨p', hp', hcp'⟩
          · exact Or.inl h
          · rw [hsp] at hp'
            rcases List.mem_cons.mp hp' with rfl | hp's
            · exact Or.inr ⟨b :: p', by rw [hparts]; exact List.mem_cons_self _ _,
                List.mem_cons_of_mem _ hcp'⟩
            · exact Or.inr ⟨p', by rw [hparts]; exact List.mem_cons_of_mem _ hp's, hcp'⟩

lemma all_isDigit_mem (l : List Char) (h : l.all Char.isDigit = true) :
    ∀ c ∈ l, c.isDigit = true := by
  intro c hc
  exact List.all_eq_true.mp h c hc

lemma isDigit_not_ws (c : Char) (h : c.isDigit = true) : pyWs c = false := by
  by_contra hw
  have hw' : pyWs c = true := by simpa using hw
  unfold pyWs at hw'
  simp only [Bool.or_eq_true, decide_eq_true_eq] at hw'
  rcases hw' with ((((rfl | rfl) | rfl) | rfl) | rfl) | rfl <;> exact absurd h (by decide)

lemma digitsToNat_chars (l : List Char) (n : Nat) (h : digitsToNat l = some n) :
    ∀ c ∈ l, c.isDigit = true := by
  unfold digitsToNat at h
  split_ifs at h with hcond
  exact all_isDigit_mem l hcond.2

lemma parseMantissa_chars (l : List Char) (q : ℚ) (h : parseMantissa l = some q) :
    ∀ c ∈ l, c.isDigit = true ∨ c = '.' := by
  intro c hc
  rcases mem_splitCharsOn '.' c l hc with rfl | ⟨p, hp, hcp⟩
  · exact Or.inr rfl
  · unfold parseMantissa at h
    split at h
    · rename_i a heq
      rw [heq] at hp
      simp only [List.mem_singleton] at hp
      subst hp
      split_ifs at h with hcond
      exact Or.inl (all_isDigit_mem p hcond.2 c hcp)
    · rename_i a b heq
      rw [heq] at hp
      simp only [List.mem_cons, List.not_mem_nil, or_false] at hp
      split_ifs at h with hcond
      rcases hp with rfl | rfl
      · exact Or.inl (all_isDigit_mem p hcond.2.1 c hcp)
      · exact Or.inl (all_isDigit_mem p hcond.2.2 c hcp)
    · exact absurd h (by simp)

lemma splitSign_chars (l : List Char) :
    ∀ c ∈ l, c = '+' ∨ c = '-' ∨ c ∈ (splitSign l).2 := by
  intro c hc
  rcases l with _ | ⟨c0, rest⟩
  · simp at hc
  · show c = '+' ∨ c = '-' ∨ c ∈
      (if c0 = '+' then (false, rest)
       else if c0 = '-' then (true, rest)
       else (false, c0 :: rest) : Bool × List Char).2
    split_ifs with h1 h2
    · rcases List.mem_cons.mp hc with rfl | hcr
      · exact Or.inl h1
      · exact Or.inr (Or.inr hcr)
    · rcases List.mem_cons.mp hc with rfl | hcr
      · exact Or.inr (Or.inl h2)
      · exact Or.inr (Or.inr hcr)
    · exact Or.inr (Or.inr hc)

lemma parseDS_parts_chars (l : List Char) (q : ℚ) (h : parseDS l = some q) :
    ∀ c' ∈ l.map (fun c => if c = 'E' then 'e' else c),
      c'.isDigit = true ∨ c' = '.' ∨ c' = '+' ∨ c' = '-' ∨ c' = 'e' := by
  intro c' hc'
  unfold parseDS at h
  rcases mem_splitCharsOn 'e' c' _ hc' with rfl | ⟨p, hp, hcp⟩
  · exact Or.inr (Or.inr (Or.inr (Or.inr rfl)))
  · split at h
    · rename_i m heq
      rw [heq] at hp
      simp only [List.mem_singleton] at hp
      subst hp
      rcases hmq : parseMantissa (splitSign p).2 with _ | q0
      · rw [hmq] at h
        exact absurd h (by simp)
      · rcases splitSign_chars p c' hcp with h1 | h1 | h1
        · exact Or.inr (Or.inr (Or.inl h1))
        · exact Or.inr (Or.inr (Or.inr (Or.inl h1)))
        · rcases parseMantissa_chars _ _ hmq c' h1 with hd | hdot
          · exact Or.inl hd
          · exact Or.inr (Or.inl hdot)
    · rename_i m ex heq
      rw [heq] at hp
      simp only [List.mem_cons, List.not_mem_nil, or_false] at hp
      rcases hmq : parseMantissa (splitSign m).2 with _ | q0
      · rw [hmq] at h
        exact absurd h (by simp)
      · rw [hmq] at h
        rcases hex : digitsToNat (splitSign ex).2 with _ | e0
        · rw [hex] at h
          exact absurd h (by simp)
        · rcases hp with rfl | rfl
          · rcases splitSign_chars p c' hcp with h1 | h1 | h1
            · exact Or.inr (Or.inr (Or.inl h1))
            · exact Or.inr (Or.inr (Or.inr (Or.inl h1)))
            · rcases parseMantissa_chars _ _ hmq c' h1 with hd | hdot
              · exact Or.inl hd
              · exact Or.inr (Or.inl hdot)
          · rcases splitSign_chars p c' hcp with h1 | h1 | h1
            · exact Or.inr (Or.inr (Or.inl h1))
            · exact Or.inr (Or.inr (Or.inr (Or.inl h1)))
            · exact Or.inl (digitsToNat_chars _ _ hex c' h1)
    · exact absurd h (by simp)

lemma parseDS_chars (l : List Char) (q : ℚ) (h : parseDS l = some q) :
    ∀ c ∈ l, pyWs c = false := by
  intro c hc
  by_cases hE : c = 'E'
  · subst hE
    decide
  · have hc' : (if c = 'E' then 'e' else c) ∈ l.map (fun x => if x = 'E' then 'e' else x) :=
      List.mem_map_of_mem _ hc
    rw [if_neg hE] at hc'
    rcases parseDS_parts_chars l q h c hc' with hd | h1 | h1 | h1 | h1
    · exact isDigit_not_ws c hd
    · subst h1; decide
    · subst h1; decide
    · subst h1; decide
    · subst h1; decide

lemma mkDS_ok_parse (l : List Char) (v : DicomValue) (h : mkDS l = .ok v) :
    ∃ q, parseDS l = some q := by
  unfold mkDS at h
  rcases hp : parseDS l with _ | q
  · rw [hp] at h
    exact absurd h (by simp)
  · exact ⟨q, rfl⟩

lemma dropWhile_of_none (p : Char → Bool) (l : List Char) (h : ∀ c ∈ l, p c = false) :
    l.dropWhile p = l := by
  cases l with
  | nil => rfl
  | cons c rest =>
    rw [List.dropWhile_cons, h c (by simp)]
    simp

lemma pyStrip_of_no_ws (l : List Char) (h : ∀ c ∈ l, pyWs c = false) : pyStrip l = l := by
  unfold pyStrip trimLeftWs trimRightWs
  rw [dropWhile_of_none pyWs l.reverse (fun c hc => h c (List.mem_reverse.mp hc)),
    List.reverse_reverse, dropWhile_of_none pyWs l h]

lemma mapExcept_forall2 {α : Type} (f : α → Except PyErr DicomValue) :
    ∀ (l : List α) (vs : List DicomValue), mapExcept f l = .ok vs →
      List.Forall₂ (fun x v => f x = .ok v) l vs := by
  intro l
  induction l with
  | nil =>
    intro vs h
    have h' : (Except.ok [] : Except PyErr (List DicomValue)) = .ok vs := h
    obtain rfl : ([] : List DicomValue) = vs := by simpa using h'
    exact List.Forall₂.nil
  | cons y ys ih =>
    intro vs h
    rcases hfy : f y with e | v
    · rw [mapExcept, hfy] at h
      exact absurd h (by simp)
    · rw [mapExcept, hfy] at h
      rcases hys : mapExcept f ys with e | ws
      · rw [hys] at h
        exact absurd h (by simp)
      · rw [hys] at h
        obtain rfl : v :: ws = vs := by simpa using h
        exact List.Forall₂.cons hfy (ih ws hys)

lemma numpy_collapse_of_two (vals : List DicomValue) (h : 2 ≤ vals.length) :
    numpy_collapse vals = .multi vals := by
  rcases vals with _ | ⟨a, _ | ⟨b, rest⟩⟩
  · simp at h
  · simp at h
  · rfl

lemma fast_vs_MultiString (s : List Char) (f : List Char → Except PyErr DicomValue)
    (vals : List DicomValue) (w : DicomValue)
    (hm : mapExcept f (splitCharsOn backslash s) = .ok vals)
    (hw : MultiString s f = .ok w) : numpy_collapse vals = w := by
  unfold MultiString at hw
  rcases hsp : splitCharsOn backslash s with _ | ⟨p, _ | ⟨p2, rest⟩⟩
  · exact absurd hsp (splitCharsOn_ne_nil _ _)
  · rw [hsp] at hm hw
    have hfp : f p = .ok w := hw
    have hf2 := mapExcept_forall2 f _ _ hm
    rcases hf2 with _ | ⟨hfv, htail⟩
    rcases htail
    have hvw := hfv.symm.trans hfp
    simpa [numpy_collapse] using hvw
  · rw [hsp] at hm hw
    have hw2 : (match mapExcept f (p :: p2 :: rest) with
      | Except.error e => Except.error e
      | Except.ok vs => Except.ok (DicomValue.multi vs)) = Except.ok w := hw
    rw [hm] at hw2
    have hw' : (Except.ok (DicomValue.multi vals) : Except PyErr DicomValue) = .ok w := hw2
    obtain rfl : DicomValue.multi vals = w := by simpa using hw'
    have hlen := (mapExcept_forall2 f _ _ hm).length_eq
    refine numpy_collapse_of_two vals ?_
    simp only [List.length_cons] at hlen
    omega

/-- C9: whenever the accelerated numeric-string path and the component-wise
converter both succeed on the same payload, they produce identical values,
including the collapse of a single parsed number to a scalar; for DS this
holds because any string the accelerated parser fully accepts contains no
whitespace, so the whole-string strip done by `convert_DS_string` is a
no-op. -/
theorem c9_fast_path_value_identical (raw_data_element : RawElement) (encoding : String)
    (v w : DicomValue) :
    (convert_value_num_str "IS" raw_data_element encoding = .ok v →
      convert_IS_string raw_data_element.value = .ok w → v = w) ∧
    (convert_value_num_str "DS" raw_data_element encoding = .ok v →
      convert_DS_string raw_data_element.value = .ok w → v = w) := by
  constructor
  · intro hfast hcomp
    unfold convert_value_num_str at hfast
    rcases hchk : num_str_check "IS" (pyDecode encoding raw_data_element.value) with e | u
    · rw [hchk] at hfast
      exact absurd hfast (by simp)
    · rw [hchk] at hfast
      rcases hnf : numpy_fromstring "IS" (pyDecode encoding raw_data_element.value)
          with e | vals
      · rw [hnf] at hfast
        exact absurd hfast (by simp)
      · rw [hnf] at hfast
        have hfast' : (Except.ok (numpy_collapse vals) : Except PyErr DicomValue) =
            .ok v := hfast
        obtain rfl : numpy_collapse vals = v := by simpa using hfast'
        have hnf' : mapExcept mkIS
            (splitCharsOn backslash (pyDecode encoding raw_data_element.value)) =
            .ok vals := hnf
        have hcomp' : MultiString (pyDecode encoding raw_data_element.value) mkIS =
            .ok w := hcomp
        exact fast_vs_MultiString _ mkIS vals w hnf' hcomp'
  · intro hfast hcomp
    unfold convert_value_num_str at hfast
    rcases hchk : num_str_check "DS" (pyDecode encoding raw_data_element.value) with e | u
    · rw [hchk] at hfast
      exact absurd hfast (by simp)
    · rw [hchk] at hfast
      rcases hnf : numpy_fromstring "DS" (pyDecode encoding raw_data_element.value)
          with e | vals
      · rw [hnf] at hfast
        exact absurd hfast (by simp)
      · rw [hnf] at hfast
        have hfast' : (Except.ok (numpy_collapse vals) : Except PyErr DicomValue) =
            .ok v := hfast
        obtain rfl : numpy_collapse vals = v := by simpa using hfast'
        have hnf' : mapExcept mkDS
            (splitCharsOn backslash (pyDecode encoding raw_data_element.value)) =
            .ok vals := hnf
        have hparse := mapExcept_ok_mem mkDS _ _ hnf'
        have hnows : ∀ c ∈ pyDecode encoding raw_data_element.value, pyWs c = false := by
          intro c hc
          rcases mem_splitCharsOn backslash c _ hc with rfl | ⟨p, hp, hcp⟩
          · decide
          · obtain ⟨vp, hvp⟩ := hparse p hp
            obtain ⟨q0, hq0⟩ := mkDS_ok_parse p vp hvp
            exact parseDS_chars p q0 hq0 c hcp
        have hstrip : pyStrip (pyDecode encoding raw_data_element.value) =
            pyDecode encoding raw_data_element.value := pyStrip_of_no_ws _ hnows
        have hcomp' : MultiString (pyStrip (pyDecode encoding raw_data_element.value))
            mkDS = .ok w := hcomp
        rw [hstrip] at hcomp'
        exact fast_vs_MultiString _ mkDS vals w hnf' hcomp'

/-- Witness for C9 at a concrete payload accepted by both paths. -/
theorem c9_witness :
    convert_value_num_str "IS" ⟨0, [49, 50], true, false, 0⟩ default_encoding =
      .ok (.isv 12) ∧
    convert_IS_string [49, 50] = .ok (.isv 12) ∧
    (DicomValue.isv 12) = (DicomValue.isv 12) := by
  refine ⟨rfl, rfl, ?_⟩
  exact (c9_fast_path_value_identical ⟨0, [49, 50], true, false, 0⟩ default_encoding
    (.isv 12) (.isv 12)).1 rfl rfl

/-- Modelled from the spec: the set of VR codes classified as text
(`pydicom.charset.text_VRs`), which receive the second encoding slot. -/
def text_VRs : List String := ["SH", "LO", "ST", "LT", "UC", "UT"]

/-- The tagged converter function stored in the registry: either the
generic numeric unpacker with its format character, or one of the plain
converter functions of the source. -/
inductive ConvFn
  | numbers (fmt : StructFmt)
  | OB
  | OW
  | UI
  | strC
  | DA
  | TM
  | PN
  | IS
  | DS
  | AE
  | singleStr
  | SQ
  | UN
  | UR
  | AT
  | DT

/-- Embedding of the `converters` registry dict, entry for entry,
including the ambiguous aliases. -/
def converters : String → Option ConvFn
  | "UL" => some (.numbers .L)
  | "SL" => some (.numbers .l)
  | "US" => some (.numbers .H)
  | "SS" => some (.numbers .h)
  | "FL" => some (.numbers .f)
  | "FD" => some (.numbers .d)
  | "OF" => some (.numbers .f)
  | "OB" => some .OB
  | "OD" => some .OB
  | "OL" => some .OB
  | "UI" => some .UI
  | "SH" => some .strC
  | "DA" => some .DA
  | "TM" => some .TM
  | "CS" => some .strC
  | "PN" => some .PN
  | "LO" => some .strC
  | "IS" => some .IS
  | "DS" => some .DS
  | "AE" => some .AE
  | "AS" => some .strC
  | "LT" => some .singleStr
  | "SQ" => some .SQ
  | "UC" => some .strC
  | "UN" => some .UN
  | "UR" => some .UR
  | "AT" => some .AT
  | "ST" => some .strC
  | "OW" => some .OW
  | "OW/OB" => some .OB
  | "OB/OW" => some .OB
  | "OW or OB" => some .OB
  | "OB or OW" => some .OB
  | "US or SS" => some .OW
  | "US or OW" => some .OW
  | "US or SS or OW" => some .OW
  | "US\\US or SS\\US" => some .OW
  | "DT" => some .DT
  | "UT" => some .singleStr
  | _ => none

/-- The fixed `convert_retry_VR_order` list of the source. -/
def convert_retry_VR_order : List String :=
  ["SH", "UL", "SL", "US", "SS", "FL", "FD", "OF", "OB", "UI", "DA", "TM",
   "PN", "IS", "DS", "LT", "SQ", "UN", "AT", "OW", "DT", "UT"]

/-- The encoding argument of `convert_value`: a bare string or a list. -/
inductive PyEncoding
  | one (s : String)
  | many (l : List String)

/-- The normalisation to the 3-element form done by `convert_value`. -/
def normEnc : PyEncoding → List String
  | .one s => [s, s, s]
  | .many l => l

/-- Run a registry converter in the plain (non-PN, non-text, non-SQ)
branch, where the call passes (byte_string, is_little_endian, num_format)
and the string converters use their default encoding.  The `SQ` case is
unreachable through `convert_value` (the VR "SQ" takes the dedicated
branch) and is given a total placeholder. -/
def runConv (cfg : Config) (cf : ConvFn) (byte_string : List Nat) (is_little_endian : Bool) :
    Except PyErr DicomValue :=
  match cf with
  | .numbers fmt => convert_numbers byte_string is_little_endian fmt
  | .OB => convert_OBvalue byte_string
  | .OW => convert_OBvalue byte_string
  | .UI => convert_UI byte_string
  | .strC => convert_string byte_string default_encoding
  | .DA => convert_DA_string cfg byte_string
  | .TM => convert_TM_string cfg byte_string
  | .PN => convert_PN byte_string none
  | .IS => convert_IS_string byte_string
  | .DS => convert_DS_string byte_string
  | .AE => convert_AE_string byte_string default_encoding
  | .singleStr => convert_single_string byte_string default_encoding
  | .SQ => convert_SQ byte_string is_little_endian is_little_endian [] 0
  | .UN => convert_OBvalue byte_string
  | .UR => convert_UR_string byte_string default_encoding
  | .AT => convert_ATvalue byte_string is_little_endian
  | .DT => convert_DT_string cfg byte_string

/-- Run a registry converter in the text-VR branch, which passes the
second encoding slot; only `convert_string` and `convert_single_string`
are reachable here because `text_VRs` maps onto those converters. -/
def runTextConv (cfg : Config) (cf : ConvFn) (byte_string : List Nat)
    (is_little_endian : Bool) (encoding : String) : Except PyErr DicomValue :=
  match cf with
  | .strC => convert_string byte_string encoding
  | .singleStr => convert_single_string byte_string encoding
  | _ => runConv cfg cf byte_string is_little_endian

/-- The try-block of `convert_value`: dispatch the found converter with
the encoding rules of the façade — PN receives the full triple, text VRs
the second slot, SQ the sequence bridge with the element offset, and
everything else the numeric format (or none). -/
def primaryConvert (cfg : Config) (cf : ConvFn) (VR : String)
    (raw_data_element : RawElement) (enc3 : List String) : Except PyErr DicomValue :=
  if VR = "PN" then
    convert_PN raw_data_element.value (some enc3)
  else if VR ∈ text_VRs then
    runTextConv cfg cf raw_data_element.value raw_data_element.is_little_endian
      (enc3.getD 1 default_encoding)
  else if VR ≠ "SQ" then
    runConv cfg cf raw_data_element.value raw_data_element.is_little_endian
  else
    convert_SQ raw_data_element.value raw_data_element.is_implicit_VR
      raw_data_element.is_little_endian enc3 raw_data_element.value_tell

/-- The retry loop of `convert_value`: iterate the fixed order, skip the
original VR, and return the first alternate conversion that does not
raise (any exception from an alternate is swallowed). -/
def retryLoop (f : String → Except PyErr DicomValue) (VR : String) :
    List String → Option DicomValue
  | [] => none
  | vr :: rest =>
    if vr = VR then retryLoop f VR rest
    else
      match f vr with
      | .ok v => some v
      | .error _ => retryLoop f VR rest

/-- Embedding of `convert_value`, with an explicit recursion budget: the
retry loop re-enters `convert_value`, which Python bounds only by its
recursion limit, modelled here by `fuel` and `fuelExhausted`. -/
def convert_value : Nat → Config → String → RawElement → PyEncoding → Except PyErr DicomValue
  | 0, _, _, _, _ => .error .fuelExhausted
  | n + 1, cfg, VR, raw_data_element, encoding =>
    match converters VR with
    | none => .error (.notImplementedError ("Unknown Value Representation '" ++ VR ++ "'"))
    | some cf =>
      match primaryConvert cfg cf VR raw_data_element (normEnc encoding) with
      | .ok v => .ok v
      | .error (.valueError msg) =>
        if cfg.enforce_valid_values then .error (.valueError msg)
        else
          match retryLoop
              (fun vr => convert_value n cfg vr raw_data_element (.many (normEnc encoding)))
              VR convert_retry_VR_order with
          | some v => .ok v
          | none => .ok (.bytes raw_data_element.value)
      | .error e => .error e

lemma retryLoop_first (f : String → Except PyErr DicomValue) (VR : String) (v : DicomValue) :
    ∀ (pre : List String) (post : List String) (alt : String), alt ≠ VR →
      (∀ u ∈ pre, u = VR ∨ ∃ e, f u = .error e) → f alt = .ok v →
      retryLoop f VR (pre ++ alt :: post) = some v := by
  intro pre
  induction pre with
  | nil =>
    intro post alt halt _ hok
    rw [List.nil_append, retryLoop, if_neg halt, hok]
  | cons u us ih =>
    intro post alt halt hpre hok
    rw [List.cons_append, retryLoop]
    by_cases hu : u = VR
    · rw [if_pos hu]
      exact ih post alt halt (fun x hx => hpre x (by simp [hx])) hok
    · rw [if_neg hu]
      rcases hpre u (by simp) with h | ⟨e, he⟩
      · exact absurd h hu
      · rw [he]
        exact ih post alt halt (fun x hx => hpre x (by simp [hx])) hok

lemma retryLoop_none (f : String → Except PyErr DicomValue) (VR : String) :
    ∀ l : List String, (∀ u ∈ l, u = VR ∨ ∃ e, f u = .error e) →
      retryLoop f VR l = none := by
  intro l
  induction l with
  | nil => intro _; rfl
  | cons u us ih =>
    intro h
    rw [retryLoop]
    by_cases hu : u = VR
    · rw [if_pos hu]
      exact ih (fun x hx => h x (by simp [hx]))
    · rw [if_neg hu]
      rcases h u (by simp) with h1 | ⟨e, he⟩
      · exact absurd h1 hu
      · rw [he]
        exact ih (fun x hx => h x (by simp [hx]))

lemma convert_value_succ (n : Nat) (cfg : Config) (VR : String) (cf : ConvFn)
    (raw_data_element : RawElement) (encoding : PyEncoding)
    (hcf : converters VR = some cf) :
    convert_value (n + 1) cfg VR raw_data_element encoding =
      match primaryConvert cfg cf VR raw_data_element (normEnc encoding) with
      | .ok v => .ok v
      | .error (.valueError msg) =>
        if cfg.enforce_valid_values then .error (.valueError msg)
        else
          match retryLoop
              (fun vr => convert_value n cfg vr raw_data_element (.many (normEnc encoding)))
              VR convert_retry_VR_order with
          | some v => .ok v
          | none => .ok (.bytes raw_data_element.value)
      | .error e => .error e := by
  rw [convert_value, hcf]

lemma convert_value_lenient_retry (n : Nat) (cfg : Config) (VR : String) (cf : ConvFn)
    (raw_data_element : RawElement) (encoding : PyEncoding) (msg : String)
    (hcf : converters VR = some cf)
    (hstrict : cfg.enforce_valid_values = false)
    (hfail : primaryConvert cfg cf VR raw_data_element (normEnc encoding) =
      .error (.valueError msg)) :
    convert_value (n + 1) cfg VR raw_data_element encoding =
      match retryLoop
          (fun vr => convert_value n cfg vr raw_data_element (.many (normEnc encoding)))
          VR convert_retry_VR_order with
      | some v => .ok v
      | none => .ok (.bytes raw_data_element.value) := by
  rw [convert_value_succ n cfg VR cf raw_data_element encoding hcf, hfail]
  simp [hstrict]

lemma structUnpack_err (fmt : StructFmt) (little : Bool) (count : Nat) (bs : List Nat)
    (e : PyErr) (h : structUnpack fmt little count bs = .error e) : e = .structError := by
  by_cases hc : bs.length = count * byteWidth fmt
  · rw [structUnpack, if_pos hc] at h
    exact absurd h (by simp)
  · rw [structUnpack, if_neg hc] at h
    simpa using h.symm

lemma convert_numbers_err (byte_string : List Nat) (is_little_endian : Bool)
    (struct_format : StructFmt) (e : PyErr)
    (h : convert_numbers byte_string is_little_endian struct_format = .error e) :
    e = .structError := by
  simp only [convert_numbers] at h
  rcases hu : structUnpack struct_format is_little_endian
      (byte_string.length / byteWidth struct_format) byte_string with e' | vals
  · rw [hu] at h
    have h' : (Except.error e' : Except PyErr DicomValue) = .error e := h
    obtain rfl : e' = e := by simpa using h'
    exact structUnpack_err _ _ _ _ _ hu
  · rw [hu] at h
    have h' : (Except.ok (collapseNumbers vals) : Except PyErr DicomValue) = .error e := h
    exact absurd h' (by simp)

lemma convert_ATvalue_err (byte_string : List Nat) (is_little_endian : Bool) (e : PyErr)
    (h : convert_ATvalue byte_string is_little_endian = .error e) : e = .structError := by
  simp only [convert_ATvalue] at h
  by_cases h4 : byte_string.length = 4
  · rw [if_pos h4] at h
    exact convert_tag_err_kind _ _ _ _ h
  · rw [if_neg h4] at h
    rcases hm : mapExcept (fun x => convert_tag byte_string is_little_endian x)
        ((List.range ((byte_string.length + 3) / 4)).map (fun i => 4 * i)) with e' | tags
    · rw [hm] at h
      have h' : (Except.error e' : Except PyErr DicomValue) = .error e := h
      obtain rfl : e' = e := by simpa using h'
      obtain ⟨x, hx, hfx⟩ := mapExcept_err _ _ _ hm
      exact convert_tag_err_kind _ _ _ _ hfx
    · rw [hm] at h
      have h' : (Except.ok (DicomValue.multi tags) : Except PyErr DicomValue) = .error e := h
      exact absurd h' (by simp)

lemma mapExcept_total {α : Type} (f : α → Except PyErr DicomValue)
    (hf : ∀ x, ∃ v, f x = .ok v) : ∀ l : List α, ∃ vs, mapExcept f l = .ok vs := by
  intro l
  induction l with
  | nil => exact ⟨[], rfl⟩
  | cons x xs ih =>
    obtain ⟨v, hv⟩ := hf x
    obtain ⟨vs, hvs⟩ := ih
    exact ⟨v :: vs, by simp [mapExcept, hv, hvs]⟩

lemma MultiString_total (s : List Char) (f : List Char → Except PyErr DicomValue)
    (hf : ∀ p, ∃ v, f p = .ok v) : ∃ v, MultiString s f = .ok v := by
  unfold MultiString
  rcases hsp : splitCharsOn backslash s with _ | ⟨p, _ | ⟨p2, rest⟩⟩
  · exact absurd hsp (splitCharsOn_ne_nil _ _)
  · exact hf p
  · obtain ⟨vs, hvs⟩ := mapExcept_total f hf (p :: p2 :: rest)
    refine ⟨.multi vs, ?_⟩
    show (match mapExcept f (p :: p2 :: rest) with
      | Except.error e => Except.error e
      | Except.ok vs => Except.ok (DicomValue.multi vs)) = Except.ok (DicomValue.multi vs)
    rw [hvs]

lemma MultiString_err (s : List Char) (f : List Char → Except PyErr DicomValue) (e : PyErr)
    (h : MultiString s f = .error e) : ∃ p, f p = .error e := by
  unfold MultiString at h
  rcases hsp : splitCharsOn backslash s with _ | ⟨p, _ | ⟨p2, rest⟩⟩
  · exact absurd hsp (splitCharsOn_ne_nil _ _)
  · rw [hsp] at h
    exact ⟨p, h⟩
  · rw [hsp] at h
    have h2 : (match mapExcept f (p :: p2 :: rest) with
      | Except.error e => Except.error e
      | Except.ok vs => Except.ok (DicomValue.multi vs)) = Except.error e := h
    rcases hm : mapExcept f (p :: p2 :: rest) with e' | vs
    · rw [hm] at h2
      have h3 : (Except.error e' : Except PyErr DicomValue) = .error e := h2
      obtain rfl : e' = e := by simpa using h3
      obtain ⟨x, hx, hfx⟩ := mapExcept_err _ _ _ hm
      exact ⟨x, hfx⟩
    · rw [hm] at h2
      have h3 : (Except.ok (DicomValue.multi vs) : Except PyErr DicomValue) = .error e := h2
      exact absurd h3 (by simp)

lemma convert_string_total (bs : List Nat) (enc : String) :
    ∃ v, convert_string bs enc = .ok v :=
  MultiString_total _ _ (fun p => ⟨.str p, rfl⟩)

lemma convert_UI_total (bs : List Nat) : ∃ v, convert_UI bs = .ok v := by
  simp only [convert_UI]
  exact MultiString_total _ mkUID (fun p => ⟨.uid p, rfl⟩)

lemma mkIS_err (l : List Char) (e : PyErr) (h : mkIS l = .error e) :
    ∃ m, e = .valueError m := by
  unfold mkIS at h
  rcases hp : parseIS l with _ | n
  · rw [hp] at h
    have h' : (Except.error (PyErr.valueError ("invalid IS value: " ++ l.asString)) :
      Except PyErr DicomValue) = .error e := h
    exact ⟨_, by simpa using h'.symm⟩
  · rw [hp] at h
    exact absurd (show (Except.ok (DicomValue.isv n) : Except PyErr DicomValue) = .error e
      from h) (by simp)

lemma mkDS_err (l : List Char) (e : PyErr) (h : mkDS l = .error e) :
    ∃ m, e = .valueError m := by
  unfold mkDS at h
  rcases hp : parseDS l with _ | q
  · rw [hp] at h
    have h' : (Except.error (PyErr.valueError ("invalid DS value: " ++ l.asString)) :
      Except PyErr DicomValue) = .error e := h
    exact ⟨_, by simpa using h'.symm⟩
  · rw [hp] at h
    exact absurd (show (Except.ok (DicomValue.dsv q) : Except PyErr DicomValue) = .error e
      from h) (by simp)

lemma mkDA_err (l : List Char) (e : PyErr) (h : mkDA l = .error e) :
    ∃ m, e = .valueError m := by
  unfold mkDA at h
  split_ifs at h
  exact ⟨_, by simpa using h.symm⟩

lemma mkDT_err (l : List Char) (e : PyErr) (h : mkDT l = .error e) :
    ∃ m, e = .valueError m := by
  unfold mkDT at h
  split_ifs at h
  exact ⟨_, by simpa using h.symm⟩

lemma mkTM_err (l : List Char) (e : PyErr) (h : mkTM l = .error e) :
    ∃ m, e = .valueError m := by
  unfold mkTM at h
  split_ifs at h
  exact ⟨_, by simpa using h.symm⟩

lemma splitBox_err (mk : List Char → Except PyErr DicomValue) (s : List Char) (e : PyErr)
    (hmk : ∀ l e', mk l = .error e' → ∃ m, e' = .valueError m)
    (h : (match splitCharsOn backslash s with
      | [p] => mk (trimRightWs p)
      | parts =>
        match mapExcept (fun p => mk (trimRightWs p)) parts with
        | Except.error e => Except.error e
        | Except.ok vs => Except.ok (DicomValue.multi vs)) = Except.error e) :
    ∃ m, e = .valueError m := by
  rcases hsp : splitCharsOn backslash s with _ | ⟨p, _ | ⟨p2, rest⟩⟩
  · exact absurd hsp (splitCharsOn_ne_nil _ _)
  · rw [hsp] at h
    exact hmk (trimRightWs p) e h
  · rw [hsp] at h
    have h2 : (match mapExcept (fun p => mk (trimRightWs p)) (p :: p2 :: rest) with
      | Except.error e => Except.error e
      | Except.ok vs => Except.ok (DicomValue.multi vs)) = Except.error e := h
    rcases hm : mapExcept (fun p => mk (trimRightWs p)) (p :: p2 :: rest) with e' | vs
    · rw [hm] at h2
      have h3 : (Except.error e' : Except PyErr DicomValue) = .error e := h2
      obtain rfl : e' = e := by simpa using h3
      obtain ⟨x, hx, hfx⟩ := mapExcept_err _ _ _ hm
      exact hmk (trimRightWs x) _ hfx
    · rw [hm] at h2
      exact absurd (show (Except.ok (DicomValue.multi vs) : Except PyErr DicomValue) =
        .error e from h2) (by simp)

lemma convert_DA_string_err (cfg : Config) (bs : List Nat) (e : PyErr)
    (h : convert_DA_string cfg bs = .error e) : ∃ m, e = .valueError m := by
  unfold convert_DA_string at h
  split_ifs at h with hdt
  · exact splitBox_err mkDA _ e mkDA_err h
  · obtain ⟨v, hv⟩ := convert_string_total bs default_encoding
    rw [hv] at h
    exact absurd h (by simp)

lemma convert_DT_string_err (cfg : Config) (bs : List Nat) (e : PyErr)
    (h : convert_DT_string cfg bs = .error e) : ∃ m, e = .valueError m := by
  unfold convert_DT_string at h
  split_ifs at h with hdt
  · exact splitBox_err mkDT _ e mkDT_err h
  · obtain ⟨v, hv⟩ := convert_string_total bs default_encoding
    rw [hv] at h
    exact absurd h (by simp)

lemma convert_TM_string_err (cfg : Config) (bs : List Nat) (e : PyErr)
    (h : convert_TM_string cfg bs = .error e) : ∃ m, e = .valueError m := by
  unfold convert_TM_string at h
  split_ifs at h with hdt
  · exact splitBox_err mkTM _ e mkTM_err h
  · obtain ⟨v, hv⟩ := convert_string_total bs default_encoding
    rw [hv] at h
    exact absurd h (by simp)

lemma runConv_err_kind (cfg : Config) (cf : ConvFn) (bs : List Nat) (little : Bool)
    (e : PyErr) (h : runConv cfg cf bs little = .error e) :
    e = .structError ∨ ∃ m, e = .valueError m := by
  cases cf
  case numbers fmt =>
    simp only [runConv] at h
    exact Or.inl (convert_numbers_err _ _ _ _ h)
  case OB =>
    simp only [runConv, convert_OBvalue] at h
    exact absurd h (by simp)
  case OW =>
    simp only [runConv, convert_OBvalue] at h
    exact absurd h (by simp)
  case UN =>
    simp only [runConv, convert_OBvalue] at h
    exact absurd h (by simp)
  case UI =>
    simp only [runConv] at h
    obtain ⟨v, hv⟩ := convert_UI_total bs
    rw [hv] at h
    exact absurd h (by simp)
  case strC =>
    simp only [runConv] at h
    obtain ⟨v, hv⟩ := convert_string_total bs default_encoding
    rw [hv] at h
    exact absurd h (by simp)
  case DA =>
    simp only [runConv] at h
    exact Or.inr (convert_DA_string_err cfg bs e h)
  case TM =>
    simp only [runConv] at h
    exact Or.inr (convert_TM_string_err cfg bs e h)
  case DT =>
    simp only [runConv] at h
    exact Or.inr (convert_DT_string_err cfg bs e h)
  case PN =>
    simp only [runConv] at h
    rw [convert_PN_strip] at h
    exact absurd h (by simp)
  case IS =>
    simp only [runConv] at h
    obtain ⟨p, hp⟩ := MultiString_err _ _ _
      (show MultiString (pyDecode default_encoding bs) mkIS = .error e from h)
    exact Or.inr (mkIS_err _ _ hp)
  case DS =>
    simp only [runConv] at h
    obtain ⟨p, hp⟩ := MultiString_err _ _ _
      (show MultiString (pyStrip (pyDecode default_encoding bs)) mkDS = .error e from h)
    exact Or.inr (mkDS_err _ _ hp)
  case AE =>
    simp only [runConv, convert_AE_string] at h
    exact absurd h (by simp)
  case singleStr =>
    simp only [runConv, convert_single_string] at h
    exact absurd h (by simp)
  case SQ =>
    simp only [runConv, convert_SQ] at h
    exact absurd h (by simp)
  case UR =>
    simp only [runConv, convert_UR_string] at h
    exact absurd h (by simp)
  case AT =>
    simp only [runConv] at h
    exact Or.inl (convert_ATvalue_err _ _ _ h)

lemma runTextConv_err_kind (cfg : Config) (cf : ConvFn) (bs : List Nat) (little : Bool)
    (enc : String) (e : PyErr) (h : runTextConv cfg cf bs little enc = .error e) :
    e = .structError ∨ ∃ m, e = .valueError m := by
  cases cf
  case strC =>
    simp only [runTextConv] at h
    obtain ⟨v, hv⟩ := convert_string_total bs enc
    rw [hv] at h
    exact absurd h (by simp)
  case singleStr =>
    simp only [runTextConv, convert_single_string] at h
    exact absurd h (by simp)
  all_goals
    simp only [runTextConv] at h
    exact runConv_err_kind cfg _ bs little e h

lemma primaryConvert_err_kind (cfg : Config) (cf : ConvFn) (VR : String)
    (raw_data_element : RawElement) (enc3 : List String) (e : PyErr)
    (h : primaryConvert cfg cf VR raw_data_element enc3 = .error e) :
    e = .structError ∨ ∃ m, e = .valueError m := by
  unfold primaryConvert at h
  split_ifs at h with hPN hText hSQ
  · rw [convert_PN_strip] at h
    exact absurd h (by simp)
  · exact runTextConv_err_kind cfg cf _ _ _ e h
  · exact runConv_err_kind cfg cf _ _ e h
  · simp only [convert_SQ] at h
    exact absurd h (by simp)

lemma convert_value_some_not_notimpl (n : Nat) (cfg : Config) (VR : String) (cf : ConvFn)
    (raw_data_element : RawElement) (encoding : PyEncoding) (m : String)
    (hcf : converters VR = some cf) :
    convert_value (n + 1) cfg VR raw_data_element encoding ≠
      .error (.notImplementedError m) := by
  rw [convert_value_succ n cfg VR cf raw_data_element encoding hcf]
  rcases hp : primaryConvert cfg cf VR raw_data_element (normEnc encoding) with e | v
  · rcases primaryConvert_err_kind cfg cf VR raw_data_element (normEnc encoding) e hp
      with rfl | ⟨m', rfl⟩
    · intro hcontra
      have h2 : (Except.error PyErr.structError : Except PyErr DicomValue) =
        .error (.notImplementedError m) := hcontra
      simp at h2
    · intro hcontra
      have h2 : (if cfg.enforce_valid_values then Except.error (PyErr.valueError m')
        else match retryLoop
            (fun vr => convert_value n cfg vr raw_data_element (.many (normEnc encoding)))
            VR convert_retry_VR_order with
          | some v => Except.ok v
          | none => Except.ok (DicomValue.bytes raw_data_element.value)) =
        .error (.notImplementedError m) := hcontra
      split_ifs at h2 with hs
      · simp at h2
      · rcases hr : retryLoop
            (fun vr => convert_value n cfg vr raw_data_element (.many (normEnc encoding)))
            VR convert_retry_VR_order with _ | v
        · rw [hr] at h2
          simp at h2
        · rw [hr] at h2
          simp at h2
  · intro hcontra
    have h2 : (Except.ok v : Except PyErr DicomValue) = .error (.notImplementedError m) :=
      hcontra
    simp at h2

/-- C1: in lenient mode, when the primary conversion of a raw element
raises a ValueError, `convert_value` walks the fixed retry order skipping
the original VR, and what it returns is exactly the result of converting
the same raw element and (normalised) encoding directly with the first
alternate VR whose recursive conversion succeeds. -/
theorem c1_retry_first_alternate (n : Nat) (cfg : Config) (VR : String) (cf : ConvFn)
    (raw_data_element : RawElement) (encoding : PyEncoding) (msg : String)
    (pre post : List String) (alt : String) (v : DicomValue)
    (hcf : converters VR = some cf)
    (hstrict : cfg.enforce_valid_values = false)
    (hfail : primaryConvert cfg cf VR raw_data_element (normEnc encoding) =
      .error (.valueError msg))
    (horder : convert_retry_VR_order = pre ++ alt :: post)
    (halt : alt ≠ VR)
    (hpre : ∀ u ∈ pre, u = VR ∨
      ∃ e, convert_value n cfg u raw_data_element (.many (normEnc encoding)) = .error e)
    (hok : convert_value n cfg alt raw_data_element (.many (normEnc encoding)) = .ok v) :
    convert_value (n + 1) cfg VR raw_data_element encoding =
      convert_value n cfg alt raw_data_element (.many (normEnc encoding)) := by
  have hloop := retryLoop_first
    (fun vr => convert_value n cfg vr raw_data_element (.many (normEnc encoding))) VR v
    pre post alt halt hpre hok
  rw [convert_value_lenient_retry n cfg VR cf raw_data_element encoding msg hcf hstrict hfail,
    horder, hloop, hok]

/-- C2: in lenient mode, when the primary conversion raises a ValueError
and every alternate VR of the retry order fails as well, `convert_value`
returns the untouched raw byte payload as the value and does not raise. -/
theorem c2_exhausted_fallback (n : Nat) (cfg : Config) (VR : String) (cf : ConvFn)
    (raw_data_element : RawElement) (encoding : PyEncoding) (msg : String)
    (hcf : converters VR = some cf)
    (hstrict : cfg.enforce_valid_values = false)
    (hfail : primaryConvert cfg cf VR raw_data_element (normEnc encoding) =
      .error (.valueError msg))
    (hall : ∀ u ∈ convert_retry_VR_order, u = VR ∨
      ∃ e, convert_value n cfg u raw_data_element (.many (normEnc encoding)) = .error e) :
    convert_value (n + 1) cfg VR raw_data_element encoding =
      .ok (.bytes raw_data_element.value) := by
  rw [convert_value_lenient_retry n cfg VR cf raw_data_element encoding msg hcf hstrict hfail,
    retryLoop_none _ _ _ hall]

/-- C3: `convert_value` raises the unsupported-VR error exactly when the
VR code is absent from the converter registry, whatever the strict flag;
a registered VR never produces that error, so an unsupported VR fails
before any conversion or retry is attempted. -/
theorem c3_unsupported_iff (fuel : Nat) (cfg : Config) (VR : String)
    (raw_data_element : RawElement) (encoding : PyEncoding) (hfuel : 0 < fuel) :
    (convert_value fuel cfg VR raw_data_element encoding =
      .error (.notImplementedError ("Unknown Value Representation '" ++ VR ++ "'"))) ↔
      converters VR = none := by
  obtain ⟨n, rfl⟩ : ∃ n, fuel = n + 1 := ⟨fuel - 1, by omega⟩
  constructor
  · intro h
    rcases hcf : converters VR with _ | cf
    · rfl
    · exact absurd h
        (convert_value_some_not_notimpl n cfg VR cf raw_data_element encoding _ hcf)
  · intro hnone
    rw [convert_value, hnone]

/-- C10: only a ValueError from the primary converter triggers the retry
chain; an exception of any other kind propagates to the caller unchanged,
whatever the strict flag is. -/
theorem c10_non_valueerror_propagates (n : Nat) (cfg : Config) (VR : String) (cf : ConvFn)
    (raw_data_element : RawElement) (encoding : PyEncoding) (e : PyErr)
    (hcf : converters VR = some cf)
    (hfail : primaryConvert cfg cf VR raw_data_element (normEnc encoding) = .error e)
    (hnotVE : ∀ m, e ≠ .valueError m) :
    convert_value (n + 1) cfg VR raw_data_element encoding = .error e := by
  rw [convert_value_succ n cfg VR cf raw_data_element encoding hcf, hfail]
  rcases e with m | _ | m | _
  · exact absurd rfl (hnotVE m)
  · rfl
  · rfl
  · rfl

/-- Witness for C1: a DS payload "abc" fails its primary conversion with a
ValueError; the first alternate, SH, succeeds, and the result equals the
direct SH conversion. -/
theorem c1_witness :
    convert_value 2 ⟨false, false⟩ "DS" ⟨0, [97, 98, 99], true, false, 0⟩ (.one "iso8859") =
      convert_value 1 ⟨false, false⟩ "SH" ⟨0, [97, 98, 99], true, false, 0⟩
        (.many ["iso8859", "iso8859", "iso8859"]) := by
  refine c1_retry_first_alternate 1 ⟨false, false⟩ "DS" .DS
    ⟨0, [97, 98, 99], true, false, 0⟩ (.one "iso8859") "invalid DS value: abc" []
    ["UL", "SL", "US", "SS", "FL", "FD", "OF", "OB", "UI", "DA", "TM",
     "PN", "IS", "DS", "LT", "SQ", "UN", "AT", "OW", "DT", "UT"] "SH"
    (.str ['a', 'b', 'c']) rfl rfl rfl rfl (by decide) ?_ rfl
  intro u hu
  exact absurd hu (List.not_mem_nil u)

/-- Witness for C2: with no recursion budget left every alternate fails,
and the DS payload "abc" comes back as its raw bytes. -/
theorem c2_witness :
    convert_value 1 ⟨false, false⟩ "DS" ⟨0, [97, 98, 99], true, false, 0⟩ (.one "iso8859") =
      .ok (.bytes [97, 98, 99]) := by
  refine c2_exhausted_fallback 0 ⟨false, false⟩ "DS" .DS
    ⟨0, [97, 98, 99], true, false, 0⟩ (.one "iso8859") "invalid DS value: abc"
    rfl rfl rfl ?_
  intro u hu
  exact Or.inr ⟨.fuelExhausted, rfl⟩

/-- Witness for C3: the unregistered VR code "XX" raises the
unsupported-VR error even in strict mode. -/
theorem c3_witness :
    convert_value 1 ⟨true, false⟩ "XX" ⟨0, [], true, false, 0⟩ (.one "iso8859") =
      .error (.notImplementedError "Unknown Value Representation 'XX'") :=
  (c3_unsupported_iff 1 ⟨true, false⟩ "XX" ⟨0, [], true, false, 0⟩ (.one "iso8859")
    (by decide)).mpr rfl

/-- Witness for C10: a 3-byte US payload raises struct.error, which
propagates unchanged even in lenient mode. -/
theorem c10_witness :
    convert_value 1 ⟨false, false⟩ "US" ⟨0, [0, 0, 1], true, false, 0⟩ (.one "iso8859") =
      .error .structError := by
  refine c10_non_valueerror_propagates 0 ⟨false, false⟩ "US" (.numbers .H)
    ⟨0, [0, 0, 1], true, false, 0⟩ (.one "iso8859") .structError rfl rfl ?_
  intro m hcontra
  exact PyErr.noConfusion hcontra

end PydicomValues
